/-
Verification of the habit-tracker data model and its update protocol.

The definitions below are a shallow embedding of the canonical two-table
variant found in src/routes/+page.svelte and
src/routes/previous-days/+page.svelte: a `habits` table (id, name, streak)
and a `master` table of per-day completion records (id, habit_id,
completed, date).  SQL rows are lists in insertion order; AUTOINCREMENT
primary keys are modelled by the `nextHabitId` and `nextMasterId`
counters.  The streak column is an `Int` so that the floor-at-zero
behaviour of `Math.max(newStreak - 1, 0)` is a provable property rather
than an artefact of the type.
-/
import Mathlib

/-- Row of the `habits` table: `id INTEGER PRIMARY KEY AUTOINCREMENT`,
`name TEXT NOT NULL`, `streak INTEGER NOT NULL DEFAULT 0`. -/
structure Habit where
  id : Nat
  name : String
  streak : Int
deriving DecidableEq, Repr

/-- Row of the `master` table: `id INTEGER PRIMARY KEY AUTOINCREMENT`,
`habit_id INTEGER NOT NULL`, `completed INTEGER NOT NULL DEFAULT 0`,
`date STRING`.  The unused `completed_repeats` column is omitted since no
operation reads or writes it. -/
structure MasterRecord where
  id : Nat
  habit_id : Nat
  completed : Bool
  date : String
deriving DecidableEq, Repr

/-- The persistent store: both tables in insertion order, plus the next
AUTOINCREMENT key of each table. -/
structure HTState where
  habits : List Habit
  master : List MasterRecord
  nextHabitId : Nat
  nextMasterId : Nat
deriving DecidableEq, Repr

/-- The in-memory `Habit` interface of the pages: a habits row merged with
the completed flag derived from the master record of the day. -/
structure HabitView where
  id : Nat
  name : String
  streak : Int
  completed : Bool
deriving DecidableEq, Repr

/-- Error taxonomy of the repository contract: `ValidationError` is the
early return of `addHabit` on a blank name, `NotFoundError` the early
return of `toggleHabit` when the habit id is not present. -/
inductive Err where
  | validationError
  | notFoundError
deriving DecidableEq, Repr

/-- Fresh empty store right after `initDatabase` creates the two tables:
no rows, AUTOINCREMENT keys start at 1. -/
def initState : HTState := ⟨[], [], 1, 1⟩

/-- JavaScript `String.prototype.trim()`: strip leading and trailing
whitespace, written structurally on the character list. -/
def jsTrim (s : String) : String :=
  ⟨((s.data.dropWhile Char.isWhitespace).reverse.dropWhile Char.isWhitespace).reverse⟩

/-- The SQL pattern `date LIKE day` plus a percent wildcard: the stored date string matches a
calendar day exactly when the day string is a textual prefix of it. -/
def matchesDay (day : String) (date : String) : Bool :=
  day.data.isPrefixOf date.data

/-- The query `SELECT * FROM master WHERE habit_id = $1 AND date LIKE $2
LIMIT 1` of `toggleHabit`: first master row (in table order) whose
habit_id equals the given id and whose date has the day as prefix. -/
def findMasterFor (s : HTState) (id : Nat) (day : String) : Option MasterRecord :=
  s.master.find? (fun m => m.habit_id == id && matchesDay day m.date)

/-- The completed flag the pages derive for a habit on a day: the flag of
the first matching master record, false when there is none. -/
def completedForDay (s : HTState) (id : Nat) (day : String) : Bool :=
  match findMasterFor s id day with
  | some r => r.completed
  | none => false

/-- Streak currently stored on the habits row with the given id (0 when
the id is absent, mirroring that no row would be rendered). -/
def streakOf (s : HTState) (id : Nat) : Int :=
  match s.habits.find? (fun h => h.id == id) with
  | some h => h.streak
  | none => 0

/-- Lines 53-74 of the main page (`getHabits`) and lines 41-58 of the
previous-days page (`getHabitsForDate`): read all habits rows, read all
master rows whose date is on the given day (the `LIKE` prefix pattern), and map
each habits row to a view whose completed flag comes from the first
day-matching master record with that habit_id, defaulting to false. -/
def getHabitsForDate (s : HTState) (day : String) : List HabitView :=
  let masterRows := s.master.filter (fun m => matchesDay day m.date)
  s.habits.map (fun row =>
    match masterRows.find? (fun m => m.habit_id == row.id) with
    | some m => ⟨row.id, row.name, row.streak, m.completed⟩
    | none => ⟨row.id, row.name, row.streak, false⟩)

/-- Lines 165-179 (`addHabit`): the guard `if (!newHabitName.trim())
return` aborts with no write when the trimmed name is empty (the
ValidationError of the contract); otherwise `INSERT INTO habits (name,
streak) VALUES (trimmedName, 0)` appends a fresh row. -/
def addHabit (s : HTState) (name : String) : Except Err HTState :=
  if jsTrim name = "" then
    Except.error Err.validationError
  else
    Except.ok { s with
      habits := s.habits ++ [⟨s.nextHabitId, jsTrim name, 0⟩],
      nextHabitId := s.nextHabitId + 1 }

/-- Lines 182-194 (`deleteHabit`): `DELETE FROM habits WHERE id = $1`
followed by `DELETE FROM master WHERE habit_id = $1`. -/
def deleteHabit (s : HTState) (id : Nat) : HTState :=
  { s with
    habits := s.habits.filter (fun h => !(h.id == id)),
    master := s.master.filter (fun m => !(m.habit_id == id)) }

/-- Lines 143-148: the streak update rule, `newStreak + 1` when the record
was toggled to completed, `Math.max(newStreak - 1, 0)` when toggled off. -/
def applyToggleStreak (streak : Int) (updatedCompleted : Bool) : Int :=
  if updatedCompleted then streak + 1 else max (streak - 1) 0

/-- The statement `UPDATE habits SET streak = $1 WHERE id = $2`. -/
def setStreak (hs : List Habit) (id : Nat) (st : Int) : List Habit :=
  hs.map (fun h => if h.id = id then { h with streak := st } else h)

/-- Lines 110-162 (`toggleHabit`, both pages): abort when the habit id is
not found (the NotFoundError of the contract); otherwise look up the
master record of the day (`findMasterFor`).  When found, `UPDATE master SET
completed = flipped, date = now WHERE id = record.id`; when absent,
`INSERT INTO master (habit_id, completed, date) VALUES (id, 1, now)`.
Then write the adjusted streak back with `UPDATE habits SET streak`.
`day` is the calendar-day string (`currentDate.split("T")[0]` on the main
page, `selectedDate` on the history page) and `now` the full timestamp
`new Date(...).toISOString()`. -/
def toggleHabit (s : HTState) (id : Nat) (day now : String) : Except Err HTState :=
  match s.habits.find? (fun h => h.id == id) with
  | none => Except.error Err.notFoundError
  | some habit =>
    match findMasterFor s id day with
    | some r =>
      Except.ok { s with
        master := s.master.map (fun m =>
          if m.id = r.id then { m with completed := !r.completed, date := now } else m),
        habits := setStreak s.habits id (applyToggleStreak habit.streak (!r.completed)) }
    | none =>
      Except.ok { s with
        master := s.master ++ [⟨s.nextMasterId, id, true, now⟩],
        nextMasterId := s.nextMasterId + 1,
        habits := setStreak s.habits id (applyToggleStreak habit.streak true) }

/-- Intermediate store after the master-table write of `toggleHabit`
(lines 124-139) but before the habits-table streak write (lines 149-152):
the code issues these as two separate awaited statements with no enclosing
transaction, so this state is observable if the second write fails. -/
def toggleMasterPhase (s : HTState) (id : Nat) (day now : String) : HTState :=
  match s.habits.find? (fun h => h.id == id) with
  | none => s
  | some _ =>
    match findMasterFor s id day with
    | some r =>
      { s with
        master := s.master.map (fun m =>
          if m.id = r.id then { m with completed := !r.completed, date := now } else m) }
    | none =>
      { s with
        master := s.master ++ [⟨s.nextMasterId, id, true, now⟩],
        nextMasterId := s.nextMasterId + 1 }

/-- Lines 87-90: `completedCount` counts the views whose completed flag is
set. -/
def completedCount (hs : List HabitView) : Nat :=
  (hs.filter (fun h => h.completed)).length

/-- Lines 88-90: `progressPercent = habits.length ? (completedCount /
habits.length) * 100 : 0`, with the truthiness guard on the length. -/
def progressPercent (hs : List HabitView) : ℚ :=
  if hs.length = 0 then 0
  else ((completedCount hs : ℚ) / (hs.length : ℚ)) * 100

/-- States reachable from the fresh store through the repository
operations, following only the successful branches (errors leave the
store untouched). -/
inductive Reachable : HTState → Prop where
  | init : Reachable initState
  | add (s s' : HTState) (name : String) :
      Reachable s → addHabit s name = Except.ok s' → Reachable s'
  | toggle (s s' : HTState) (id : Nat) (day now : String) :
      Reachable s → toggleHabit s id day now = Except.ok s' → Reachable s'
  | del (s : HTState) (id : Nat) : Reachable s → Reachable (deleteHabit s id)

/-! Concrete dates and timestamps used by the witness theorems. -/

def exDay : String := "2025-04-14"

def exDay2 : String := "2025-04-15"

def exNow1 : String := "2025-04-14T10:00:00.000Z"

def exNow2 : String := "2025-04-14T11:30:00.000Z"

def exName : String := "water"

def exBlank : String := "  "

/-! Helper lemmas about the list operations the store model is built on. -/

theorem map_update_id {l : List MasterRecord} {k : Nat} {f : MasterRecord → MasterRecord}
    (h : ∀ x ∈ l, x.id ≠ k) :
    l.map (fun m => if m.id = k then f m else m) = l := by
  induction l with
  | nil => rfl
  | cons a t ih =>
    simp only [List.map_cons]
    rw [if_neg (h a (by simp)), ih (fun x hx => h x (by simp [hx]))]

theorem map_update_decomp {l1 l2 : List MasterRecord} {r : MasterRecord}
    {f : MasterRecord → MasterRecord}
    (h1 : ∀ x ∈ l1, x.id ≠ r.id) (h2 : ∀ x ∈ l2, x.id ≠ r.id) :
    (l1 ++ r :: l2).map (fun m => if m.id = r.id then f m else m) = l1 ++ f r :: l2 := by
  rw [List.map_append, map_update_id h1, List.map_cons, if_pos rfl, map_update_id h2]

theorem nodup_ids_split {l1 l2 : List MasterRecord} {r : MasterRecord}
    (h : ((l1 ++ r :: l2).map (fun m => m.id)).Nodup) :
    (∀ x ∈ l1, x.id ≠ r.id) ∧ (∀ x ∈ l2, x.id ≠ r.id) := by
  rw [List.map_append, List.map_cons, List.nodup_append] at h
  obtain ⟨-, h2, hdisj⟩ := h
  constructor
  · intro x hx hxr
    exact hdisj (List.mem_map_of_mem _ hx) (by simp [hxr])
  · intro x hx hxr
    exact (List.nodup_cons.1 h2).1 (hxr ▸ List.mem_map_of_mem _ hx)

theorem find?_prepend_none {α : Type} {p : α → Bool} {l1 l2 : List α}
    (h : ∀ x ∈ l1, p x = false) :
    (l1 ++ l2).find? p = l2.find? p := by
  rw [List.find?_append, List.find?_eq_none.mpr (fun x hx => by simp [h x hx]), Option.none_or]

theorem find?_setStreak (hs : List Habit) (id : Nat) (st : Int) :
    (setStreak hs id st).find? (fun h => h.id == id)
      = (hs.find? (fun h => h.id == id)).map (fun h => { h with streak := st }) := by
  induction hs with
  | nil => rfl
  | cons a t ih =>
    by_cases ha : a.id = id
    · simp only [setStreak, List.map_cons, if_pos ha]
      rw [List.find?_cons_of_pos _ (by simp [ha]), List.find?_cons_of_pos _ (by simp [ha])]
      rfl
    · simp only [setStreak, List.map_cons, if_neg ha]
      rw [List.find?_cons_of_neg _ (by simp [ha]), List.find?_cons_of_neg _ (by simp [ha])]
      simpa [setStreak] using ih

theorem streakOf_setStreak (s : HTState) (hs : List Habit) (id : Nat) (st : Int)
    {habit : Habit} (hfind : hs.find? (fun h => h.id == id) = some habit)
    (hhs : s.habits = setStreak hs id st) :
    streakOf s id = st := by
  unfold streakOf
  rw [hhs, find?_setStreak, hfind]
  rfl

theorem applyToggleStreak_nonneg {streak : Int} (h : 0 ≤ streak) (b : Bool) :
    0 ≤ applyToggleStreak streak b := by
  unfold applyToggleStreak
  split
  · omega
  · exact le_max_right _ _

theorem setStreak_streak_nonneg {hs : List Habit} {id : Nat} {st : Int}
    (h : ∀ y ∈ hs, 0 ≤ y.streak) (hst : 0 ≤ st) :
    ∀ x ∈ setStreak hs id st, 0 ≤ x.streak := by
  intro x hx
  simp only [setStreak, List.mem_map] at hx
  obtain ⟨y, hy, rfl⟩ := hx
  by_cases hid : y.id = id
  · simpa [hid] using hst
  · simpa [hid] using h y hy

/-- C1: starting from a habit created with streak 0, every sequence of
createHabit, toggleCompletion and deleteHabit operations keeps every
streak non-negative: toggle-to-complete adds 1 and toggle-to-incomplete
subtracts 1 floored at 0, so no reachable state holds a negative
streak. -/
theorem streak_nonneg_reachable (s : HTState) (h : Reachable s) :
    ∀ hb ∈ s.habits, 0 ≤ hb.streak := by
  induction h with
  | init =>
    intro hb hhb
    simp [initState] at hhb
  | @add s s' name hr heq ih =>
    unfold addHabit at heq
    split at heq
    · cases heq
    · injection heq with heq
      subst heq
      intro hb hhb
      rcases List.mem_append.1 hhb with h1 | h1
      · exact ih hb h1
      · simp only [List.mem_singleton] at h1
        subst h1
        exact le_refl 0
  | @toggle s s' id day now hr heq ih =>
    unfold toggleHabit at heq
    cases hfind : s.habits.find? (fun h => h.id == id) with
    | none => rw [hfind] at heq; cases heq
    | some habit =>
      rw [hfind] at heq
      have hmem : habit ∈ s.habits := List.mem_of_find?_eq_some hfind
      have hnn : 0 ≤ habit.streak := ih habit hmem
      cases hm : findMasterFor s id day with
      | some r =>
        rw [hm] at heq
        injection heq with heq
        subst heq
        exact setStreak_streak_nonneg ih (applyToggleStreak_nonneg hnn _)
      | none =>
        rw [hm] at heq
        injection heq with heq
        subst heq
        exact setStreak_streak_nonneg ih (applyToggleStreak_nonneg hnn _)
  | @del s id hr ih =>
    intro hb hhb
    exact ih hb (List.mem_of_mem_filter hhb)

/-- Witness for C1 at a concrete reachable state: create a habit, then
toggle it complete for a day; the resulting habit row has streak 1, which
is non-negative. -/
theorem streak_nonneg_reachable_witness :
    0 ≤ (Habit.mk 1 "water" 1).streak :=
  streak_nonneg_reachable
    ⟨[⟨1, "water", 1⟩], [⟨1, 1, true, "2025-04-14T10:00:00.000Z"⟩], 2, 2⟩
    (Reachable.toggle ⟨[⟨1, "water", 0⟩], [], 2, 1⟩
      ⟨[⟨1, "water", 1⟩], [⟨1, 1, true, "2025-04-14T10:00:00.000Z"⟩], 2, 2⟩ 1 exDay exNow1
      (Reachable.add initState ⟨[⟨1, "water", 0⟩], [], 2, 1⟩ exName Reachable.init rfl) rfl)
    ⟨1, "water", 1⟩ (by decide)

/-- C4: deleteHabit removes the habits row with the given id and every
master record referencing it (no orphans), keeps every other row and
record, is idempotent, is a no-op rather than an error when the id is
absent, and the deleted habit appears in no later listHabitsForDate
result. -/
theorem deleteHabit_cascade_idempotent (s : HTState) (id : Nat) :
    (∀ hb ∈ (deleteHabit s id).habits, hb.id ≠ id) ∧
    (∀ m ∈ (deleteHabit s id).master, m.habit_id ≠ id) ∧
    (∀ hb ∈ s.habits, hb.id ≠ id → hb ∈ (deleteHabit s id).habits) ∧
    (∀ m ∈ s.master, m.habit_id ≠ id → m ∈ (deleteHabit s id).master) ∧
    deleteHabit (deleteHabit s id) id = deleteHabit s id ∧
    ((∀ hb ∈ s.habits, hb.id ≠ id) → (∀ m ∈ s.master, m.habit_id ≠ id) →
      deleteHabit s id = s) ∧
    (∀ day, ∀ v ∈ getHabitsForDate (deleteHabit s id) day, v.id ≠ id) := by
  refine ⟨?_, ?_, ?_, ?_, ?_, ?_, ?_⟩
  · intro hb hhb
    have := List.of_mem_filter hhb
    simpa using this
  · intro m hm
    have := List.of_mem_filter hm
    simpa using this
  · intro hb hhb hne
    exact List.mem_filter.2 ⟨hhb, by simp [hne]⟩
  · intro m hm hne
    exact List.mem_filter.2 ⟨hm, by simp [hne]⟩
  · simp [deleteHabit, List.filter_filter]
  · intro h1 h2
    unfold deleteHabit
    rw [List.filter_eq_self.mpr (fun hb hhb => by simp [h1 hb hhb]),
      List.filter_eq_self.mpr (fun m hm => by simp [h2 m hm])]
  · intro day v hv
    unfold getHabitsForDate at hv
    simp only [List.mem_map] at hv
    obtain ⟨row, hrow, hveq⟩ := hv
    have hne : row.id ≠ id := by
      have := List.of_mem_filter hrow
      simpa using this
    cases hfm : (((deleteHabit s id).master.filter
        (fun m => matchesDay day m.date)).find? (fun m => m.habit_id == row.id)) with
    | some m => rw [hfm] at hveq; subst hveq; exact hne
    | none => rw [hfm] at hveq; subst hveq; exact hne

/-- Witness for C4: deleting habit 1 from a concrete two-habit store with
a record on each empties its rows, and deleting again changes nothing. -/
theorem deleteHabit_cascade_idempotent_witness :
    deleteHabit (deleteHabit ⟨[⟨1, "water", 1⟩, ⟨2, "run", 0⟩],
        [⟨1, 1, true, "2025-04-14T10:00:00.000Z"⟩], 3, 2⟩ 1) 1
      = deleteHabit ⟨[⟨1, "water", 1⟩, ⟨2, "run", 0⟩],
        [⟨1, 1, true, "2025-04-14T10:00:00.000Z"⟩], 3, 2⟩ 1 :=
  (deleteHabit_cascade_idempotent ⟨[⟨1, "water", 1⟩, ⟨2, "run", 0⟩],
    [⟨1, 1, true, "2025-04-14T10:00:00.000Z"⟩], 3, 2⟩ 1).2.2.2.2.1

/-- C5: createHabit on a name that trims to empty fails with
ValidationError and persists nothing; any other name inserts exactly one
habits row with streak 0 whose fresh id no completion record references,
and leaves the master table unchanged. -/
theorem addHabit_validation_spec (s : HTState) (name : String)
    (hfresh : ∀ m ∈ s.master, m.habit_id ≠ s.nextHabitId) :
    (jsTrim name = "" → addHabit s name = Except.error Err.validationError) ∧
    (jsTrim name ≠ "" → ∃ s', addHabit s name = Except.ok s' ∧
      s'.habits = s.habits ++ [⟨s.nextHabitId, jsTrim name, 0⟩] ∧
      s'.master = s.master ∧
      ∀ m ∈ s'.master, m.habit_id ≠ s.nextHabitId) := by
  constructor
  · intro h
    unfold addHabit
    rw [if_pos h]
  · intro h
    unfold addHabit
    rw [if_neg h]
    exact ⟨_, rfl, rfl, rfl, hfresh⟩

/-- Witness for C5: a whitespace-only name is rejected with no write, and
a real name is inserted with streak 0 into the empty store. -/
theorem addHabit_validation_spec_witness :
    addHabit initState exBlank = Except.error Err.validationError ∧
    ∃ s', addHabit initState exName = Except.ok s' ∧
      s'.habits = initState.habits ++ [⟨initState.nextHabitId, jsTrim exName, 0⟩] ∧
      s'.master = initState.master ∧
      ∀ m ∈ s'.master, m.habit_id ≠ initState.nextHabitId :=
  ⟨(addHabit_validation_spec initState exBlank (by decide)).1 (by decide),
   (addHabit_validation_spec initState exName (by decide)).2 (by decide)⟩

/-- C6: toggleCompletion on a habit id with no corresponding habits row
fails with NotFoundError, aborting before any write. -/
theorem toggleHabit_missing_habit (s : HTState) (id : Nat) (day now : String)
    (h : ∀ hb ∈ s.habits, hb.id ≠ id) :
    toggleHabit s id day now = Except.error Err.notFoundError := by
  have hf : s.habits.find? (fun hb => hb.id == id) = none :=
    List.find?_eq_none.mpr (fun x hx => by simp [h x hx])
  unfold toggleHabit
  rw [hf]

/-- Witness for C6: toggling habit id 7 on a store holding only habit 1
is rejected with NotFoundError. -/
theorem toggleHabit_missing_habit_witness :
    toggleHabit ⟨[⟨1, "water", 0⟩], [], 2, 1⟩ 7 exDay exNow1
      = Except.error Err.notFoundError :=
  toggleHabit_missing_habit ⟨[⟨1, "water", 0⟩], [], 2, 1⟩ 7 exDay exNow1 (by decide)

/-- C7: listHabitsForDate on a day with no completion records returns
every stored habit in store insertion order with completed false. -/
theorem getHabitsForDate_empty_day (s : HTState) (day : String)
    (h : ∀ m ∈ s.master, matchesDay day m.date = false) :
    getHabitsForDate s day = s.habits.map (fun hb => ⟨hb.id, hb.name, hb.streak, false⟩) := by
  have hnil : s.master.filter (fun m => matchesDay day m.date) = [] :=
    List.filter_eq_nil_iff.mpr (fun m hm => by simp [h m hm])
  unfold getHabitsForDate
  rw [hnil]
  simp

/-- Witness for C7: a store with two habits and one record on another day
lists both habits as not completed on the queried day. -/
theorem getHabitsForDate_empty_day_witness :
    getHabitsForDate ⟨[⟨1, "water", 3⟩, ⟨2, "run", 0⟩],
        [⟨1, 1, true, "2025-04-14T10:00:00.000Z"⟩], 3, 2⟩ exDay2
      = List.map (fun hb => (⟨hb.id, hb.name, hb.streak, false⟩ : HabitView))
          ([⟨1, "water", 3⟩, ⟨2, "run", 0⟩] : List Habit) :=
  getHabitsForDate_empty_day ⟨[⟨1, "water", 3⟩, ⟨2, "run", 0⟩],
    [⟨1, 1, true, "2025-04-14T10:00:00.000Z"⟩], 3, 2⟩ exDay2 (by decide)

/-- C10: the derived progress percentage is total on every habit list: 0
on the empty list (the division is guarded), completedCount over length
times 100 otherwise, and always within the closed interval from 0 to
100. -/
theorem progressPercent_total (hs : List HabitView) :
    0 ≤ progressPercent hs ∧ progressPercent hs ≤ 100 ∧
    (hs.length = 0 → progressPercent hs = 0) ∧
    (hs.length ≠ 0 →
      progressPercent hs = ((completedCount hs : ℚ) / (hs.length : ℚ)) * 100) := by
  by_cases h : hs.length = 0
  · unfold progressPercent
    simp [h]
  · have hlen : (0 : ℚ) < (hs.length : ℚ) := by
      exact_mod_cast Nat.pos_of_ne_zero h
    have hcount : (completedCount hs : ℚ) ≤ (hs.length : ℚ) := by
      exact_mod_cast List.length_filter_le _ hs
    have hval : progressPercent hs = ((completedCount hs : ℚ) / (hs.length : ℚ)) * 100 := by
      unfold progressPercent
      rw [if_neg h]
    refine ⟨?_, ?_, fun h0 => absurd h0 h, fun _ => hval⟩
    · rw [hval]
      positivity
    · rw [hval]
      have h1 : (completedCount hs : ℚ) / (hs.length : ℚ) ≤ 1 :=
        (div_le_one hlen).mpr hcount
      nlinarith
/-- Witness for C10: the bounds applied to the empty list and the empty
guard give progress 0. -/
theorem progressPercent_total_witness :
    0 ≤ progressPercent [] ∧ progressPercent ([] : List HabitView) = 0 :=
  ⟨(progressPercent_total []).1, (progressPercent_total []).2.2.1 rfl⟩

/-- C2: toggleCompletion locates the day record by textual prefix match of
the stored date against the target day (the lookup `findMasterFor`); when
a record is found it flips the completed flag of that record in place and
stamps its date, creating no second record for the day (the table keeps
its length and every other record); when none is found it appends one new
record with completed true whose date is the current precise timestamp. -/
theorem toggleHabit_record_lookup (s : HTState) (id : Nat) (day now : String)
    (habit : Habit) (hfind : s.habits.find? (fun h => h.id == id) = some habit) :
    (∀ r, findMasterFor s id day = some r →
      ∃ s', toggleHabit s id day now = Except.ok s' ∧
        s'.master.length = s.master.length ∧
        ({ r with completed := !r.completed, date := now } : MasterRecord) ∈ s'.master ∧
        ∀ m ∈ s.master, m.id ≠ r.id → m ∈ s'.master) ∧
    (findMasterFor s id day = none →
      ∃ s', toggleHabit s id day now = Except.ok s' ∧
        s'.master = s.master ++ [⟨s.nextMasterId, id, true, now⟩]) := by
  constructor
  · intro r hr
    have ht : toggleHabit s id day now = Except.ok { s with
        master := s.master.map (fun m =>
          if m.id = r.id then { m with completed := !r.completed, date := now } else m),
        habits := setStreak s.habits id (applyToggleStreak habit.streak (!r.completed)) } := by
      unfold toggleHabit
      rw [hfind, hr]
    refine ⟨_, ht, by simp, ?_, ?_⟩
    · have hrm : r ∈ s.master := List.mem_of_find?_eq_some hr
      have := List.mem_map_of_mem (fun m =>
        if m.id = r.id then { m with completed := !r.completed, date := now } else m) hrm
      simpa using this
    · intro m hm hne
      have := List.mem_map_of_mem (fun m =>
        if m.id = r.id then { m with completed := !r.completed, date := now } else m) hm
      simpa [hne] using this
  · intro hnone
    have ht : toggleHabit s id day now = Except.ok { s with
        master := s.master ++ [⟨s.nextMasterId, id, true, now⟩],
        nextMasterId := s.nextMasterId + 1,
        habits := setStreak s.habits id (applyToggleStreak habit.streak true) } := by
      unfold toggleHabit
      rw [hfind, hnone]
    exact ⟨_, ht, rfl⟩

/-- Witness for C2 at a concrete store whose single record is completed on
the day: the toggle flips that record in place to not completed. -/
theorem toggleHabit_record_lookup_witness :
    ∃ s', toggleHabit ⟨[⟨1, "water", 1⟩], [⟨1, 1, true, "2025-04-14T10:00:00.000Z"⟩], 2, 2⟩
        1 exDay exNow2 = Except.ok s' ∧
      s'.master.length = 1 ∧
      (⟨1, 1, false, "2025-04-14T11:30:00.000Z"⟩ : MasterRecord) ∈ s'.master ∧
      ∀ m ∈ (HTState.mk [⟨1, "water", 1⟩] [⟨1, 1, true, "2025-04-14T10:00:00.000Z"⟩] 2 2).master,
        m.id ≠ 1 → m ∈ s'.master :=
  (toggleHabit_record_lookup ⟨[⟨1, "water", 1⟩], [⟨1, 1, true, "2025-04-14T10:00:00.000Z"⟩], 2, 2⟩
    1 exDay exNow2 ⟨1, "water", 1⟩ rfl).1 ⟨1, 1, true, "2025-04-14T10:00:00.000Z"⟩ rfl

/-- C9: the atomicity the claim asserts does not hold in the code: the
master write and the streak write are two separate awaited statements
with no transaction, and after the first write alone a fresh habit
already shows completed true for the day while its streak is still 0,
the inconsistent intermediate state the claim says can never be visible.
The full toggle then ends with streak 1. -/
theorem toggle_split_write_inconsistent :
    completedForDay (toggleMasterPhase ⟨[⟨1, "water", 0⟩], [], 2, 1⟩ 1 exDay exNow1) 1 exDay
      = true ∧
    streakOf (toggleMasterPhase ⟨[⟨1, "water", 0⟩], [], 2, 1⟩ 1 exDay exNow1) 1 = 0 ∧
    toggleHabit ⟨[⟨1, "water", 0⟩], [], 2, 1⟩ 1 exDay exNow1
      = Except.ok ⟨[⟨1, "water", 1⟩], [⟨1, 1, true, exNow1⟩], 2, 2⟩ :=
  ⟨rfl, rfl, rfl⟩

/-! Helper lemmas describing the two branches of `toggleHabit` and the
streak arithmetic of a toggle pair. -/

theorem toggleHabit_found (s : HTState) (now : String) {id : Nat} {day : String}
    {habit : Habit} {r : MasterRecord}
    (hfind : s.habits.find? (fun h => h.id == id) = some habit)
    (hm : findMasterFor s id day = some r) :
    toggleHabit s id day now = Except.ok { s with
      master := s.master.map (fun m =>
        if m.id = r.id then { m with completed := !r.completed, date := now } else m),
      habits := setStreak s.habits id (applyToggleStreak habit.streak (!r.completed)) } := by
  unfold toggleHabit
  rw [hfind, hm]

theorem toggleHabit_insert (s : HTState) (now : String) {id : Nat} {day : String}
    {habit : Habit}
    (hfind : s.habits.find? (fun h => h.id == id) = some habit)
    (hm : findMasterFor s id day = none) :
    toggleHabit s id day now = Except.ok { s with
      master := s.master ++ [⟨s.nextMasterId, id, true, now⟩],
      nextMasterId := s.nextMasterId + 1,
      habits := setStreak s.habits id (applyToggleStreak habit.streak true) } := by
  unfold toggleHabit
  rw [hfind, hm]

theorem toggleHabit_found_decomp (s : HTState) (now : String) {id : Nat} {day : String}
    {habit : Habit} {r : MasterRecord} {l1 l2 : List MasterRecord}
    (hfind : s.habits.find? (fun h => h.id == id) = some habit)
    (hm : findMasterFor s id day = some r)
    (hsplit : s.master = l1 ++ r :: l2)
    (hn1 : ∀ x ∈ l1, x.id ≠ r.id) (hn2 : ∀ x ∈ l2, x.id ≠ r.id) :
    toggleHabit s id day now = Except.ok { s with
      master := l1 ++ { r with completed := !r.completed, date := now } :: l2,
      habits := setStreak s.habits id (applyToggleStreak habit.streak (!r.completed)) } := by
  rw [toggleHabit_found s now hfind hm, hsplit, map_update_decomp hn1 hn2]

theorem find?_append_cons_pos {α : Type} {p : α → Bool} {l1 l2 : List α} {b : α}
    (h1 : ∀ x ∈ l1, p x = false) (hb : p b = true) :
    (l1 ++ b :: l2).find? p = some b := by
  rw [find?_prepend_none h1, List.find?_cons_of_pos _ hb]

theorem toggle_streak_roundtrip (streak : Int) (c : Bool) (h0 : 0 ≤ streak)
    (hfl : c = true → streak ≠ 0) :
    applyToggleStreak (applyToggleStreak streak (!c)) (!(!c)) = streak := by
  cases c
  · simp [applyToggleStreak]
    omega
  · have h1 : streak ≠ 0 := hfl rfl
    simp [applyToggleStreak]
    omega

theorem completedForDay_of_find (s : HTState) {id : Nat} {day : String} {r : MasterRecord}
    (h : s.master.find? (fun m => m.habit_id == id && matchesDay day m.date) = some r) :
    completedForDay s id day = r.completed := by
  unfold completedForDay findMasterFor
  rw [h]

/-- C3: toggling the same habit for the same calendar day twice in
succession returns the completed flag of the day to its value before the pair,
and the net streak change over the pair is 0, provided the streak was not
0 at the decrement (no floor hit).  The hypotheses record what the store
guarantees: the habit exists, master record ids are unique, the next
AUTOINCREMENT id is fresh, and both written timestamps lie on the toggled
day. -/
theorem toggleHabit_twice_same_day (s : HTState) (id : Nat) (day now1 now2 : String)
    (habit : Habit)
    (hfind : s.habits.find? (fun h => h.id == id) = some habit)
    (hnodup : (s.master.map (fun m => m.id)).Nodup)
    (hfresh : ∀ m ∈ s.master, m.id ≠ s.nextMasterId)
    (hday1 : matchesDay day now1 = true)
    (hday2 : matchesDay day now2 = true)
    (hstreak : 0 ≤ habit.streak)
    (hfloor : completedForDay s id day = true → habit.streak ≠ 0) :
    ∃ s1 s2, toggleHabit s id day now1 = Except.ok s1 ∧
      toggleHabit s1 id day now2 = Except.ok s2 ∧
      completedForDay s2 id day = completedForDay s id day ∧
      streakOf s2 id = streakOf s id := by
  have hstk : streakOf s id = habit.streak := by
    unfold streakOf
    rw [hfind]
  cases hm : findMasterFor s id day with
  | some r =>
    have hm' : s.master.find? (fun m => m.habit_id == id && matchesDay day m.date)
        = some r := hm
    obtain ⟨hpr, l1, l2, hsplit, hl1⟩ := List.find?_eq_some.mp hm'
    have hl1' : ∀ x ∈ l1, (x.habit_id == id && matchesDay day x.date) = false := by
      intro x hx
      have h := hl1 x hx
      rwa [Bool.not_eq_true'] at h
    have hrid : (r.habit_id == id) = true := (Bool.and_eq_true_iff.mp hpr).1
    have hc0 : completedForDay s id day = r.completed := by
      unfold completedForDay
      rw [hm]
    rw [hsplit] at hnodup
    obtain ⟨hn1, hn2⟩ := nodup_ids_split hnodup
    have ht1 := toggleHabit_found_decomp s now1 hfind hm hsplit hn1 hn2
    have hfind1 : (setStreak s.habits id
        (applyToggleStreak habit.streak (!r.completed))).find? (fun h => h.id == id)
        = some { habit with streak := applyToggleStreak habit.streak (!r.completed) } := by
      rw [find?_setStreak, hfind]
      rfl
    have hm1 : (l1 ++ ({ r with completed := !r.completed, date := now1 }) :: l2).find?
        (fun m => m.habit_id == id && matchesDay day m.date)
        = some { r with completed := !r.completed, date := now1 } :=
      find?_append_cons_pos hl1' (by simp [hrid, hday1])
    have ht2 := toggleHabit_found_decomp
      (HTState.mk
        (setStreak s.habits id (applyToggleStreak habit.streak (!r.completed)))
        (l1 ++ ({ r with completed := !r.completed, date := now1 }) :: l2)
        s.nextHabitId s.nextMasterId)
      now2 hfind1 hm1 rfl hn1 hn2
    have hm2 : (l1 ++ ({ r with completed := !(!r.completed), date := now2 }) :: l2).find?
        (fun m => m.habit_id == id && matchesDay day m.date)
        = some { r with completed := !(!r.completed), date := now2 } :=
      find?_append_cons_pos hl1' (by simp [hrid, hday2])
    refine ⟨_, _, ht1, ht2, ?_, ?_⟩
    · exact (completedForDay_of_find _ hm2).trans
        ((Bool.not_not r.completed).trans hc0.symm)
    · rw [hstk]
      exact (streakOf_setStreak _ _ id _ hfind1 rfl).trans
        (toggle_streak_roundtrip habit.streak r.completed hstreak
          (fun hcc => hfloor (by rw [hc0, hcc])))
  | none =>
    have hm' : s.master.find? (fun m => m.habit_id == id && matchesDay day m.date)
        = none := hm
    have hall : ∀ m ∈ s.master, (m.habit_id == id && matchesDay day m.date) = false := by
      intro m hmm
      have h := List.find?_eq_none.mp hm' m hmm
      exact Bool.eq_false_iff.mpr h
    have hc0 : completedForDay s id day = false := by
      unfold completedForDay
      rw [hm]
    have ht1 := toggleHabit_insert s now1 hfind hm
    have hfind1 : (setStreak s.habits id
        (applyToggleStreak habit.streak true)).find? (fun h => h.id == id)
        = some { habit with streak := applyToggleStreak habit.streak true } := by
      rw [find?_setStreak, hfind]
      rfl
    have hm1 : (s.master ++ (⟨s.nextMasterId, id, true, now1⟩ : MasterRecord) :: []).find?
        (fun m => m.habit_id == id && matchesDay day m.date)
        = some ⟨s.nextMasterId, id, true, now1⟩ :=
      find?_append_cons_pos hall (by simp [hday1])
    have ht2 := toggleHabit_found_decomp
      (HTState.mk
        (setStreak s.habits id (applyToggleStreak habit.streak true))
        (s.master ++ (⟨s.nextMasterId, id, true, now1⟩ : MasterRecord) :: [])
        s.nextHabitId (s.nextMasterId + 1))
      now2 hfind1 hm1 rfl hfresh (by simp)
    have hm2 : (s.master ++ (⟨s.nextMasterId, id, !true, now2⟩ : MasterRecord) :: []).find?
        (fun m => m.habit_id == id && matchesDay day m.date)
        = some ⟨s.nextMasterId, id, !true, now2⟩ :=
      find?_append_cons_pos hall (by simp [hday2])
    refine ⟨_, _, ht1, ht2, ?_, ?_⟩
    · exact (completedForDay_of_find _ hm2).trans (by simp [hc0])
    · rw [hstk]
      exact (streakOf_setStreak _ _ id _ hfind1 rfl).trans
        (toggle_streak_roundtrip habit.streak false hstreak (by simp))

/-- Witness for C3: a habit with streak 2 completed on the day is toggled
off and back on; the completed flag and the streak return to their
original values. -/
theorem toggleHabit_twice_same_day_witness :
    ∃ s1 s2, toggleHabit ⟨[⟨1, "water", 2⟩], [⟨1, 1, true, "2025-04-14T10:00:00.000Z"⟩], 2, 2⟩
        1 exDay exNow1 = Except.ok s1 ∧
      toggleHabit s1 1 exDay exNow2 = Except.ok s2 ∧
      completedForDay s2 1 exDay
        = completedForDay ⟨[⟨1, "water", 2⟩],
            [⟨1, 1, true, "2025-04-14T10:00:00.000Z"⟩], 2, 2⟩ 1 exDay ∧
      streakOf s2 1
        = streakOf ⟨[⟨1, "water", 2⟩],
            [⟨1, 1, true, "2025-04-14T10:00:00.000Z"⟩], 2, 2⟩ 1 :=
  toggleHabit_twice_same_day ⟨[⟨1, "water", 2⟩],
      [⟨1, 1, true, "2025-04-14T10:00:00.000Z"⟩], 2, 2⟩ 1 exDay exNow1 exNow2
    ⟨1, "water", 2⟩ rfl (by decide) (by decide) (by decide) (by decide)
    (by decide) (by decide)

theorem find?_middle_neg {α : Type} {p : α → Bool} {l1 l2 : List α} {x : α}
    (hx : p x = false) : (l1 ++ x :: l2).find? p = (l1 ++ l2).find? p := by
  rw [List.find?_append, List.find?_append, List.find?_cons_of_neg _ (by simp [hx])]

theorem completedForDay_congr {s t : HTState} {id : Nat} {d : String}
    (h : findMasterFor s id d = findMasterFor t id d) :
    completedForDay s id d = completedForDay t id d := by
  unfold completedForDay
  rw [h]

/-- C8: toggling a habit for day D1 leaves the completed flag of the habit for
any other day D2 unchanged, leaves every other habit row and all records
of other habits in place, and adjusts the one shared streak counter on
the habit row by the day-independent rule (+1 when toggled on, -1 floored
at 0 when toggled off).  Distinct calendar days enter as: no stored date
lies on both days, and the freshly written timestamp, which lies on D1,
does not lie on D2. -/
theorem toggleHabit_day_frame (s : HTState) (id : Nat) (d1 d2 now : String)
    (habit : Habit)
    (hfind : s.habits.find? (fun h => h.id == id) = some habit)
    (hnodup : (s.master.map (fun m => m.id)).Nodup)
    (hdisj : ∀ m ∈ s.master, matchesDay d1 m.date = true → matchesDay d2 m.date = false)
    (hnow : matchesDay d2 now = false) :
    ∃ s1, toggleHabit s id d1 now = Except.ok s1 ∧
      completedForDay s1 id d2 = completedForDay s id d2 ∧
      (∀ hb ∈ s.habits, hb.id ≠ id → hb ∈ s1.habits) ∧
      (∀ m ∈ s.master, m.habit_id ≠ id → m ∈ s1.master) ∧
      streakOf s1 id = applyToggleStreak (streakOf s id) (!completedForDay s id d1) := by
  have hstk : streakOf s id = habit.streak := by
    unfold streakOf
    rw [hfind]
  cases hm : findMasterFor s id d1 with
  | some r =>
    have hm' : s.master.find? (fun m => m.habit_id == id && matchesDay d1 m.date)
        = some r := hm
    obtain ⟨hpr, l1, l2, hsplit, hl1⟩ := List.find?_eq_some.mp hm'
    have hrid : (r.habit_id == id) = true := (Bool.and_eq_true_iff.mp hpr).1
    have hrd1 : matchesDay d1 r.date = true := (Bool.and_eq_true_iff.mp hpr).2
    have hrmem : r ∈ s.master := List.mem_of_find?_eq_some hm'
    have hrd2 : matchesDay d2 r.date = false := hdisj r hrmem hrd1
    have hc0 : completedForDay s id d1 = r.completed := by
      unfold completedForDay
      rw [hm]
    rw [hsplit] at hnodup
    obtain ⟨hn1, hn2⟩ := nodup_ids_split hnodup
    have ht1 := toggleHabit_found_decomp s now hfind hm hsplit hn1 hn2
    refine ⟨_, ht1, ?_, ?_, ?_, ?_⟩
    · refine completedForDay_congr ?_
      show (l1 ++ ({ r with completed := !r.completed, date := now }) :: l2).find?
          (fun m => m.habit_id == id && matchesDay d2 m.date)
        = s.master.find? (fun m => m.habit_id == id && matchesDay d2 m.date)
      rw [hsplit, find?_middle_neg (by simp [hnow]), find?_middle_neg (by simp [hrd2])]
    · intro hb hhb hne
      have h := List.mem_map_of_mem (fun h =>
        if h.id = id then { h with streak := applyToggleStreak habit.streak (!r.completed) }
        else h) hhb
      simpa [setStreak, hne] using h
    · intro m hmem hne
      have hmr : m ≠ r := by
        intro hmr
        apply hne
        subst hmr
        simpa using hrid
      rw [hsplit] at hmem
      rcases List.mem_append.mp hmem with h1 | h1
      · exact List.mem_append_left _ h1
      · rcases List.mem_cons.mp h1 with h2 | h2
        · exact absurd h2 hmr
        · exact List.mem_append_right _ (List.mem_cons_of_mem _ h2)
    · rw [hstk, hc0]
      exact streakOf_setStreak _ _ id _ hfind rfl
  | none =>
    have hc0 : completedForDay s id d1 = false := by
      unfold completedForDay
      rw [hm]
    have ht1 := toggleHabit_insert s now hfind hm
    refine ⟨_, ht1, ?_, ?_, ?_, ?_⟩
    · refine completedForDay_congr ?_
      show (s.master ++ (⟨s.nextMasterId, id, true, now⟩ : MasterRecord) :: []).find?
          (fun m => m.habit_id == id && matchesDay d2 m.date)
        = s.master.find? (fun m => m.habit_id == id && matchesDay d2 m.date)
      rw [List.find?_append, List.find?_cons_of_neg _ (by simp [hnow])]
      simp
    · intro hb hhb hne
      have h := List.mem_map_of_mem (fun h =>
        if h.id = id then { h with streak := applyToggleStreak habit.streak true }
        else h) hhb
      simpa [setStreak, hne] using h
    · intro m hmem hne
      exact List.mem_append_left _ hmem
    · rw [hstk, hc0]
      exact streakOf_setStreak _ _ id _ hfind rfl

/-- Witness for C8: with a record only on the next day, toggling the
habit for the first day inserts a first-day record, keeps the next day's
completed flag, keeps the other habit, and bumps the streak to 1. -/
theorem toggleHabit_day_frame_witness :
    ∃ s1, toggleHabit ⟨[⟨1, "water", 0⟩, ⟨2, "run", 5⟩],
        [⟨1, 1, true, "2025-04-15T09:00:00.000Z"⟩], 3, 2⟩ 1 exDay exNow1
        = Except.ok s1 ∧
      completedForDay s1 1 exDay2
        = completedForDay ⟨[⟨1, "water", 0⟩, ⟨2, "run", 5⟩],
            [⟨1, 1, true, "2025-04-15T09:00:00.000Z"⟩], 3, 2⟩ 1 exDay2 ∧
      (∀ hb ∈ (HTState.mk [⟨1, "water", 0⟩, ⟨2, "run", 5⟩]
          [⟨1, 1, true, "2025-04-15T09:00:00.000Z"⟩] 3 2).habits,
        hb.id ≠ 1 → hb ∈ s1.habits) ∧
      (∀ m ∈ (HTState.mk [⟨1, "water", 0⟩, ⟨2, "run", 5⟩]
          [⟨1, 1, true, "2025-04-15T09:00:00.000Z"⟩] 3 2).master,
        m.habit_id ≠ 1 → m ∈ s1.master) ∧
      streakOf s1 1
        = applyToggleStreak
            (streakOf ⟨[⟨1, "water", 0⟩, ⟨2, "run", 5⟩],
              [⟨1, 1, true, "2025-04-15T09:00:00.000Z"⟩], 3, 2⟩ 1)
            (!completedForDay ⟨[⟨1, "water", 0⟩, ⟨2, "run", 5⟩],
              [⟨1, 1, true, "2025-04-15T09:00:00.000Z"⟩], 3, 2⟩ 1 exDay) :=
  toggleHabit_day_frame ⟨[⟨1, "water", 0⟩, ⟨2, "run", 5⟩],
      [⟨1, 1, true, "2025-04-15T09:00:00.000Z"⟩], 3, 2⟩ 1 exDay exDay2 exNow1
    ⟨1, "water", 0⟩ rfl (by decide) (by decide) (by decide)
